import Mathlib

/-!
Verification of the StrictRedux slice registry / query router
(`src/StrictRedux.js`) against its natural-language specification.

The development shallowly embeds the JavaScript source:
* JS strings are `String`; the JS string operations the source uses
  (`split`, `trim`, `includes`, `startsWith`) are modelled explicitly on
  `List Char` so that their behaviour matches the JS semantics used by the
  code (single-character separators throughout).
* JS objects that only carry data are association lists with insertion
  order and last-write-wins assignment (`assocSet`), matching
  `obj[key] = value` and the spread merge `{...a, ...b}`.
* Fallible code returns `Except String`.
-/

namespace StrictRedux

/-- Membership test for a character in a character list, modelling the JS
`string.includes(c)` for a one-character argument `c`. -/
def charIn (c : Char) : List Char → Bool
  | [] => false
  | a :: as => a == c || charIn c as

/-- Models `p` being a leading run of `s` on character lists; used to embed
the JS `s.startsWith(p)`. -/
def leadsWith : List Char → List Char → Bool
  | [], _ => true
  | _ :: _, [] => false
  | a :: as, b :: bs => a == b && leadsWith as bs

/-- Embeds the JS `s.startsWith(p)`. -/
def jsStartsWith (s p : String) : Bool :=
  leadsWith p.data s.data

/-- Embeds the JS `s.split(sep)` for a one-character separator: the result is
always nonempty, `"".split(sep)` is `[""]`, and separators at the ends
produce empty segments. -/
def splitChar (sep : Char) : List Char → List (List Char)
  | [] => [[]]
  | a :: as =>
    match splitChar sep as with
    | [] => [[]]
    | r :: rs => if a == sep then [] :: r :: rs else (a :: r) :: rs

/-- Embeds the JS `s.trim()`: drops whitespace from both ends. -/
def trimChars (l : List Char) : List Char :=
  ((l.dropWhile Char.isWhitespace).reverse.dropWhile Char.isWhitespace).reverse

/-- Embeds `s.split(sep)[1]`: the segment between the first and second
separator occurrence, `none` when the string has no separator (JS yields
`undefined` there). -/
def splitIdx1 (sep : Char) (s : List Char) : Option (List Char) :=
  (splitChar sep s)[1]?

/-- Prototype tags: the model only needs to know whether a link of a
prototype chain is `Error.prototype` or something else. -/
inductive Proto where
  | errorProto
  | plainProto
deriving DecidableEq, Repr

/-- JavaScript values, as far as the source inspects them: primitives, plus
objects modelled by their prototype chain (the only object structure the
bound-action factory reads).  Object field contents that the code passes
around opaquely are carried by the dedicated `Obj` association lists
below. -/
inductive Val where
  | undefined
  | null
  | bool (b : Bool)
  | num (n : Int)
  | str (s : String)
  | objv (chain : List Proto)
deriving DecidableEq, Repr

/-- JS truthiness for `Val` (objects are always truthy). -/
def truthy : Val → Bool
  | .undefined => false
  | .null => false
  | .bool b => b
  | .num n => n != 0
  | .str s => s != ""
  | .objv _ => true

/-- Membership of `Error.prototype` in a prototype chain. -/
def chainHasError : List Proto → Bool
  | [] => false
  | p :: rest => p == Proto.errorProto || chainHasError rest

/-- Embeds `v instanceof Error`: the prototype chain of `v` contains
`Error.prototype`.  Primitives are never instances. -/
def instanceofError : Val → Bool
  | .objv chain => chainHasError chain
  | _ => false

/-- Embeds `Object.getPrototypeOf(v) instanceof Error`: the chain of the
immediate prototype of `v` (the tail of the chain of `v`) contains
`Error.prototype`. -/
def protoInstanceofError : Val → Bool
  | .objv chain => chainHasError chain.tail
  | _ => false

/-- Data-carrying JS object: an insertion-ordered association list with
unique keys maintained by `assocSet`. -/
abbrev Obj := List (String × Val)

/-- Property read `o[k]`, `undefined` when absent. -/
def getProp (o : Obj) (k : String) : Val :=
  match o.find? (fun p => p.1 == k) with
  | some p => p.2
  | none => .undefined

/-- Property assignment `l[k] = v` on an association list: overwrite in
place when the key exists, append otherwise (JS insertion-order
semantics). -/
def assocSet {α : Type} (l : List (String × α)) (k : String) (v : α) :
    List (String × α) :=
  if l.any (fun p => p.1 == k) then
    l.map (fun p => if p.1 == k then (p.1, v) else p)
  else
    l ++ [(k, v)]

/-- Spread merge `{...a, ...b}`: assign every field of `b` over `a` in
order. -/
def mergeAssoc {α : Type} (a b : List (String × α)) : List (String × α) :=
  b.foldl (fun acc p => assocSet acc p.1 p.2) a

/-- Spread merge on data objects, the `{...state, ...partial}` of the slice
reducer. -/
def mergeObj (a b : Obj) : Obj := mergeAssoc a b

/-- First-match association lookup (JS objects have unique keys, which
`assocSet` maintains). -/
def lookupA {α : Type} (l : List (String × α)) (k : String) : Option α :=
  (l.find? (fun p => p.1 == k)).map (·.2)

/-- Slice descriptor (source doc under `@namespace sliceDescriptor`):
`sliceName`, `initialState`, `actionReducers` (handler key to handler
function `(stateSlice, payload) => partial`), and the optional
`createSelectors` factory.  The factory is invoked by `_createSelectors`
with the instance's `select`/`selectOne`; the model carries the object the
factory returns (named selector functions `(stateSlice, options) =>
value`). -/
structure SliceDescriptor where
  sliceName : String
  initialState : Obj
  actionReducers : List (String × (Obj → Val → Obj))
  createSelectors : Option (List (String × (Obj → Val → Val)))

/-- Flux-standard action object as `_createBoundAction` builds it.  `meta`
as `none` and `error` as `false` model the field being absent (the code
only ever sets `error` to `true`). -/
structure Action where
  type : String
  payload : Val
  meta : Option Val
  error : Bool
deriving DecidableEq, Repr

/-- The pure part of `_createBoundAction` (source lines 172-183): builds
`{ type, payload }`, attaches `meta` only when `if (meta)` holds
(truthy), and sets `error` when the payload is truthy and passes the
`instanceof`-based check of line 180. -/
def createBoundAction (type : String) (payload : Val) (meta : Option Val) :
    Action :=
  { type := type
    payload := payload
    meta := match meta with
      | some m => if truthy m then some m else none
      | none => none
    error :=
      truthy payload && (instanceofError payload || protoInstanceofError payload) }

/-- Result of one slice reducer call, keeping track of object identity:
`same` is the `return state` site (the input reference handed back
unchanged), `fresh` is the `return { ...state, ...partial }` site (a newly
allocated object). -/
inductive RefObj where
  | same
  | fresh (o : Obj)
deriving DecidableEq, Repr

/-- Contents of a `RefObj` relative to the input state. -/
def RefObj.val (state : Obj) : RefObj → Obj
  | .same => state
  | .fresh o => o

/-- Handler lookup `sliceDescriptor.actionReducers[sliceActionType]` where
`sliceActionType` is `action.type.split('_')[1]` (possibly `undefined`,
which reads as no handler). -/
def findHandler (d : SliceDescriptor) : Option (List Char) →
    Option (Obj → Val → Obj)
  | some seg => (d.actionReducers.find? (fun p => p.1.data == seg)).map (·.2)
  | none => none

/-- Ownership test of source line 194: the action type starts with this
slice's name and `split('_')[1]` names one of its handlers. -/
def sliceOwns (d : SliceDescriptor) (ty : String) : Bool :=
  jsStartsWith ty d.sliceName && (findHandler d (splitIdx1 '_' ty.data)).isSome

/-- Embeds `_createReducer` (source lines 187-199).  `registered` is
`Object.keys(this._actionCreators)`, the full list of registered action
identifiers at dispatch time. -/
def sliceReducer (registered : List String) (d : SliceDescriptor)
    (state : Obj) (a : Action) : Except String RefObj :=
  if !(registered.any (· == a.type)) && !(jsStartsWith a.type "@@") then
    .error ("Unknown action type " ++ a.type)
  else
    match jsStartsWith a.type d.sliceName,
        findHandler d (splitIdx1 '_' a.type.data) with
    | true, some h => .ok (.fresh (mergeObj state (h state a.payload)))
    | _, _ => .ok .same

/-- Top-level state: slice name to slice object, as produced by
`combineReducers(this._reducers)`. -/
abbrev TopState := List (String × Obj)

/-- The slice state fed to a slice reducer: `state[key]` for the reducer
registered under `key`, with the reducer's default parameter
`state = sliceDescriptor.initialState` supplying the initial shape on the
store's bootstrap dispatch. -/
def curSlice (st : TopState) (key : String) (d : SliceDescriptor) : Obj :=
  (lookupA st key).getD d.initialState

/-- Embeds the `combineReducers` walk over `this._reducers` (insertion
order): each slice reducer runs in turn on its own sub-state; the first
thrown error aborts the dispatch before any new top-level state exists. -/
def combinedReduce (registered : List String) :
    List (String × SliceDescriptor) → TopState → Action →
    Except String TopState
  | [], _, _ => .ok []
  | (key, d) :: rest, st, a => do
    let out ← sliceReducer registered d (curSlice st key d) a
    let tail ← combinedReduce registered rest st a
    .ok ((key, (RefObj.val (curSlice st key d) out)) :: tail)

/-- Embeds `createDefaultSelectors` (source lines 258-263): one raw-field
selector per `initialState` key, built by the same reduce-with-spread
(here `assocSet`) the source uses. -/
def createDefaultSelectors (d : SliceDescriptor) :
    List (String × (Obj → Val → Val)) :=
  d.initialState.foldl
    (fun acc p => assocSet acc p.1 (fun stateSlice _ => getProp stateSlice p.1))
    []

/-- The `allSelectors` object of `_createSelectors` (source lines 204-211):
the factory's output spread over the defaults when a factory is supplied,
the defaults alone otherwise. -/
def allSelectorsOf (d : SliceDescriptor) :
    List (String × (Obj → Val → Val)) :=
  match d.createSelectors with
  | some custom => mergeAssoc (createDefaultSelectors d) custom
  | none => createDefaultSelectors d

/-- One registered selector entry: the slice it is closed over and the
underlying slice-level selector function. -/
structure SelEntry where
  sliceName : String
  fn : Obj → Val → Val

/-- The three registries the constructor fills: `_actionCreators` keys
(each bound action is fully determined by its identifier, which line 164
also stores as its `.type` property), `_reducers`, and `_selectors`. -/
structure Registry where
  actionCreators : List String
  reducers : List (String × SliceDescriptor)
  selectors : List (String × SelEntry)

/-- Object-key insertion for a key set: add the key if absent, keep the
order otherwise (assignment to an existing key does not move it). -/
def keySet (l : List String) (k : String) : List String :=
  if l.any (· == k) then l else l ++ [k]

/-- Embeds `_registerStateSlice` (source lines 157-170): register one bound
action per `actionReducers` key under `sliceName + '_' + key`, register
the slice reducer under `sliceName`, then register the slice's
selectors under `sliceName + '_' + selectorKey`. -/
def registerStateSlice (reg : Registry) (d : SliceDescriptor) : Registry :=
  { actionCreators :=
      d.actionReducers.foldl
        (fun acc p => keySet acc (d.sliceName ++ "_" ++ p.1))
        reg.actionCreators
    reducers := assocSet reg.reducers d.sliceName d
    selectors :=
      (allSelectorsOf d).foldl
        (fun acc p =>
          assocSet acc (d.sliceName ++ "_" ++ p.1) ⟨d.sliceName, p.2⟩)
        reg.selectors }

/-- Registry construction from the ordered slice-descriptor list
(`_buildStore` line 138). -/
def buildRegistry (slices : List SliceDescriptor) : Registry :=
  slices.foldl registerStateSlice ⟨[], [], []⟩

/-- The store bootstrap action redux dispatches inside `createStore`; its
type carries the reserved `"@@"` host-framework marker. -/
def initAction : Action := ⟨"@@redux/INIT", .undefined, none, false⟩

/-- Top-level state produced by the store's bootstrap dispatch: every slice
reducer runs on the `"@@"` action with the `undefined` incoming state, so
each slot takes its `initialState`. -/
def initStoreState (reg : Registry) : Except String TopState :=
  combinedReduce reg.actionCreators reg.reducers [] initAction

/-- A StrictRedux instance after construction: the (read-only) registry and
the redux store's current state. -/
structure SR where
  reg : Registry
  storeState : TopState

/-- Store dispatch: run the combined reducer; on success redux installs the
new state and returns the action object, on a thrown error no new state is
installed. -/
def srDispatch (sr : SR) (a : Action) : Except String (Action × SR) := do
  let st ← combinedReduce sr.reg.actionCreators sr.reg.reducers sr.storeState a
  .ok (a, { sr with storeState := st })

/-- Calling a bound action (source lines 172-185): build the action object
and dispatch it immediately, returning the dispatch result. -/
def boundActionCall (sr : SR) (type : String) (payload : Val)
    (meta : Option Val) : Except String (Action × SR) :=
  srDispatch sr (createBoundAction type payload meta)

/-- Embeds `strictDispatch` (source line 116): `getAction(action.type)`
throws a not-found error for unregistered types; otherwise the bound
action is invoked with `(action.payload, action.meta)`. -/
def strictDispatchSR (sr : SR) (a : Action) : Except String (Action × SR) :=
  if sr.reg.actionCreators.any (· == a.type) then
    boundActionCall sr a.type a.payload a.meta
  else
    .error ("Action " ++ a.type ++ " not found")

/-- Value-level body of the registered selector wrapper (source lines
215-225): fetch the slice sub-state from the whole state, pass it through
unchanged on the `prevState === state` branch and as the shallow copy
`{...state[sliceName]}` otherwise, then invoke the underlying selector
with `(stateSlice, options)`.  Which branch runs is the `sameRef` flag;
the object-identity bookkeeping itself is modelled separately by
`selectorWrapperStep`. -/
def selectorBody (e : SelEntry) (st : TopState) (sameRef : Bool)
    (options : Val) : Val :=
  let slice := (lookupA st e.sliceName).getD []
  let stateSlice := if sameRef then slice else mergeObj [] slice
  e.fn stateSlice options

/-- Embeds `selectOne`/`getSelector` at the value level: look the selector
up (not-found error from source line 34) and invoke its wrapper on the
store's current state.  `sameRef` tells whether the wrapper's memo equals
that state. -/
def selOneVal (sr : SR) (name : String) (options : Val) (sameRef : Bool) :
    Except String Val :=
  match lookupA sr.reg.selectors name with
  | some e => .ok (selectorBody e sr.storeState sameRef options)
  | none => .error ("Selector " ++ name ++ " not found")

/-- Per-clause resolution inside `_normalizeQuery` (source lines 240-246):
a clause without the slice separator collects every registered key it is
a leading run of; a clause with the separator names itself exactly when
registered and nothing otherwise. -/
def resolveClause (keys : List String) (clause : String) : List String :=
  if !(charIn '_' clause.data) then
    keys.filter (fun fieldName => jsStartsWith fieldName clause)
  else if keys.any (· == clause) then [clause] else []

/-- Loop of `_normalizeQuery` (source lines 234-253) over the
comma-separated parts: trim the part, resolve it, throw the bad-query
error naming the clause and the whole query when nothing resolved, else
accumulate. -/
def normalizeQueryGo (propertyName : String) (keys : List String)
    (queryString : String) : List (List Char) → List String →
    Except String (List String)
  | [], acc => .ok acc
  | part :: rest, acc =>
    let queryClause : String := ⟨trimChars part⟩
    let names := resolveClause keys queryClause
    if names.isEmpty then
      .error ("Bad store query " ++ propertyName ++ ": " ++ queryString ++
        ". Could not resolve " ++ queryClause)
    else
      normalizeQueryGo propertyName keys queryString rest (acc ++ names)

/-- Embeds `_normalizeQuery` (source lines 229-254) for a query that is a
string (the non-string type check is discharged by typing).
`propertyName` is the registry being queried, appearing in the error
message; `keys` are that registry's `Object.keys`. -/
def normalizeQuery (propertyName : String) (keys : List String)
    (queryString : String) : Except String (List String) :=
  normalizeQueryGo propertyName keys queryString
    (splitChar ',' queryString.data) []

/-- Trimmed clause list of a query, for stating properties of
`normalizeQuery`. -/
def clausesOf (queryString : String) : List String :=
  (splitChar ',' queryString.data).map (fun part => ⟨trimChars part⟩)

/-- One invocation of a registered selector wrapper, seen through object
identity only: `stateRef` is the identity of the whole-state object the
call receives, `sliceRef` the identity of `state[sliceName]`, and
`freshRef` the identity of the newly allocated `{...state[sliceName]}`
(so a valid call has `freshRef` distinct from every live reference, in
particular from `sliceRef`). -/
structure SelCall where
  stateRef : Nat
  sliceRef : Nat
  freshRef : Nat
deriving DecidableEq, Repr

/-- Identity bookkeeping of the selector wrapper (source lines 215-222):
`memo` is the wrapper's `prevState` (initially unset); on a call the
wrapper passes the cached slice reference when `prevState === state` and
the fresh copy otherwise, and in both branches stores the new whole-state
identity into `prevState`.  The result is the reference passed to the
underlying selector together with the updated memo. -/
def selectorWrapperStep (memo : Option Nat) (c : SelCall) :
    Nat × Option Nat :=
  if memo = some c.stateRef then (c.sliceRef, some c.stateRef)
  else (c.freshRef, some c.stateRef)

/-! Concrete slice descriptors used by the executable scenarios. -/

/-- Numeric case of the JS `+` operator, all the scenario handlers need. -/
def valAdd : Val → Val → Val
  | .num a, .num b => .num (a + b)
  | _, _ => .undefined

/-- Handler `increment: (state, payload) => ({value: state.value +
payload})` of the specification's counter scenario. -/
def incrementHandler : Obj → Val → Obj :=
  fun st p => [("value", valAdd (getProp st "value") p)]

/-- Slice `counter` with `initialState = {value: 0}` and the `increment`
handler. -/
def counterDesc : SliceDescriptor :=
  { sliceName := "counter"
    initialState := [("value", .num 0)]
    actionReducers := [("increment", incrementHandler)]
    createSelectors := none }

/-- Registry built from the single `counter` slice. -/
def counterReg : Registry := buildRegistry [counterDesc]

/-- The counter scenario of the specification: bootstrap the store, call
the bound action `counter_increment` with payload `5` twice, then read
selector `counter_value`; the result is the final top-level state paired
with the selector's value. -/
def counterRun : Except String (TopState × Val) := do
  let st0 ← initStoreState counterReg
  let (_, sr1) ← boundActionCall ⟨counterReg, st0⟩ "counter_increment"
    (.num 5) none
  let (_, sr2) ← boundActionCall sr1 "counter_increment" (.num 5) none
  let v ← selOneVal sr2 "counter_value" .undefined false
  .ok (sr2.storeState, v)

/-- Slice `a` with handler `x`, for the routing counterexample. -/
def sliceA : SliceDescriptor :=
  { sliceName := "a"
    initialState := [("v", .num 0)]
    actionReducers := [("x", fun _ _ => [("v", .num 1)])]
    createSelectors := none }

/-- Slice `ab`, whose name has slice `a`'s name as a leading run, with its
own handler `x`. -/
def sliceAB : SliceDescriptor :=
  { sliceName := "ab"
    initialState := [("w", .num 0)]
    actionReducers := [("x", fun _ _ => [("w", .num 2)])]
    createSelectors := none }

/-- Registry built from the two overlapping slices `a` and `ab`. -/
def overlapReg : Registry := buildRegistry [sliceA, sliceAB]

/-- Dispatch of the action `ab_x` (owned by slice `ab`) against the
two-slice store, starting from the bootstrap state. -/
def overlapRun : Except String TopState := do
  let st0 ← initStoreState overlapReg
  let (_, sr1) ← boundActionCall ⟨overlapReg, st0⟩ "ab_x" (.num 0) none
  .ok sr1.storeState

/-- Error-like value in the sense of the specification: a direct `Error`
instance or a value whose prototype chain derives from `Error` — in both
cases the chain reaches `Error.prototype`. -/
def errorLikeSpec : Val → Bool
  | .objv chain => chainHasError chain
  | _ => false

/-- The public operations of a constructed instance, with the run-time data
each call receives.  Selector-invoking operations carry the identity
(`stateRef`) of the whole-state object their wrappers memoize. -/
inductive PubOp where
  | getSelectorOp (name : String)
  | getSelectorsOp (q : String)
  | selectOneOp (name : String) (options : Val) (stateRef : Nat)
  | selectOp (q : String) (options : Val) (stateRef : Nat)
  | getActionOp (name : String)
  | getActionsOp (q : String)
  | strictDispatchOp (a : Action)
  | getActionTypesOp (q : Option String)
  | mapStateToPropsOp (q : String) (options : Val) (stateRef : Nat)
  | mapDispatchToPropsOp (q : String)

/-- Full mutable state of a constructed instance: the registries filled by
the constructor, the redux store state, and the `prevState` memo attached
to each selector wrapper (absent until the selector's first call). -/
structure SRState where
  reg : Registry
  storeState : TopState
  memos : List (String × Nat)

/-- Effect of one public operation on the instance state, following what
each method of the source touches: the lookup and factory methods only
read; `selectOne`/`select`/`createMapStateToProps` update the invoked
selectors' `prevState` memos; `strictDispatch` routes through the store's
dispatch.  A thrown error leaves the state as it was. -/
def applyOp (s : SRState) : PubOp → SRState
  | .getSelectorOp _ => s
  | .getSelectorsOp _ => s
  | .selectOneOp name _ stateRef =>
    if (lookupA s.reg.selectors name).isSome then
      { s with memos := assocSet s.memos name stateRef }
    else s
  | .selectOp q _ stateRef =>
    match normalizeQuery "_selectors" (s.reg.selectors.map Prod.fst) q with
    | .ok names =>
      { s with memos :=
          names.foldl (fun ms n => assocSet ms n stateRef) s.memos }
    | .error _ => s
  | .getActionOp _ => s
  | .getActionsOp _ => s
  | .strictDispatchOp a =>
    match strictDispatchSR ⟨s.reg, s.storeState⟩ a with
    | .ok (_, sr2) => { s with storeState := sr2.storeState }
    | .error _ => s
  | .getActionTypesOp _ => s
  | .mapStateToPropsOp q _ stateRef =>
    match normalizeQuery "_selectors" (s.reg.selectors.map Prod.fst) q with
    | .ok names =>
      { s with memos :=
          names.foldl (fun ms n => assocSet ms n stateRef) s.memos }
    | .error _ => s
  | .mapDispatchToPropsOp _ => s

/-! Basic lemmas about the string and association-list primitives. -/

/-- A list is a leading run of itself followed by anything. -/
theorem leadsWith_append (l t : List Char) : leadsWith l (l ++ t) = true := by
  induction l with
  | nil => rfl
  | cons a as ih => simp [leadsWith, ih]

/-- Every string starts with the empty string. -/
theorem jsStartsWith_empty (s : String) : jsStartsWith s "" = true := rfl

/-- A concatenation starts with its left part. -/
theorem jsStartsWith_left (s t : String) : jsStartsWith (s ++ t) s = true := by
  unfold jsStartsWith
  rw [String.data_append]
  exact leadsWith_append s.data t.data

/-- `splitChar` never returns the empty list. -/
theorem splitChar_ne_nil (sep : Char) (l : List Char) :
    splitChar sep l ≠ [] := by
  cases l with
  | nil => simp [splitChar]
  | cons a as =>
    simp only [splitChar]
    cases h : splitChar sep as with
    | nil => simp
    | cons r rs =>
      by_cases hc : a == sep <;> simp [hc]

/-- Splitting a list with a trailing separator appends one empty
segment. -/
theorem splitChar_append_sep (sep : Char) (l : List Char) :
    splitChar sep (l ++ [sep]) = splitChar sep l ++ [[]] := by
  induction l with
  | nil => simp [splitChar]
  | cons a as ih =>
    cases h : splitChar sep as with
    | nil => exact absurd h (splitChar_ne_nil sep as)
    | cons r rs =>
      simp only [List.cons_append, splitChar, List.append_eq, ih, h]
      by_cases hc : a == sep <;> simp [hc]

/-- A separator-free list splits into one segment. -/
theorem splitChar_no_sep (sep : Char) (l : List Char)
    (h : charIn sep l = false) : splitChar sep l = [l] := by
  induction l with
  | nil => rfl
  | cons a as ih =>
    simp only [charIn, Bool.or_eq_false_iff] at h
    simp [splitChar, ih h.2, h.1]

/-- Splitting around the first separator of a list whose head part is
separator-free. -/
theorem splitChar_sep_mid (sep : Char) (xs ys : List Char)
    (h : charIn sep xs = false) :
    splitChar sep (xs ++ sep :: ys) = xs :: splitChar sep ys := by
  induction xs with
  | nil =>
    simp only [List.nil_append, splitChar]
    cases hy : splitChar sep ys with
    | nil => exact absurd hy (splitChar_ne_nil sep ys)
    | cons r rs => simp
  | cons a as ih =>
    simp only [charIn, Bool.or_eq_false_iff] at h
    simp only [List.cons_append, splitChar, List.append_eq, ih h.2]
    simp [h.1]

/-- Character contents of a well-formed action identifier
`slice + '_' + key`. -/
theorem name_data (s h : String) :
    (s ++ "_" ++ h).data = s.data ++ '_' :: h.data := by
  rw [String.data_append, String.data_append]
  show (s.data ++ ['_']) ++ h.data = _
  rw [List.append_assoc, List.singleton_append]

/-- The `split('_')[1]` segment of a well-formed action identifier
`slice + '_' + key` is exactly the handler key, provided neither part
contains the separator. -/
theorem splitIdx1_name (s h : String)
    (hs : charIn '_' s.data = false) (hh : charIn '_' h.data = false) :
    splitIdx1 '_' (s ++ "_" ++ h).data = some h.data := by
  unfold splitIdx1
  rw [name_data, splitChar_sep_mid '_' s.data h.data hs,
    splitChar_no_sep '_' h.data hh]
  rfl

/-- Unfolding of `lookupA` over a cons cell. -/
theorem lookupA_cons {α : Type} (q : String × α) (l : List (String × α))
    (k2 : String) :
    lookupA (q :: l) k2 = if q.1 == k2 then some q.2 else lookupA l k2 := by
  unfold lookupA
  cases h : q.1 == k2 <;> simp [List.find?, h]

/-- Overwrite-in-place branch of `assocSet`: looking up the overwritten key
finds the new value, provided the key occurs. -/
theorem lookupA_map_set_self {α : Type} (l : List (String × α)) (k : String)
    (v : α) (hany : l.any (fun p => p.1 == k) = true) :
    lookupA (l.map (fun p => if p.1 == k then (p.1, v) else p)) k = some v := by
  induction l with
  | nil => simp at hany
  | cons p ps ih =>
    by_cases hp : p.1 == k
    · rw [List.map_cons, if_pos hp, lookupA_cons]
      simp [hp]
    · simp only [Bool.not_eq_true] at hp
      rw [List.map_cons, if_neg (by simp [hp]), lookupA_cons, hp]
      simp only [List.any_cons, hp, Bool.false_or] at hany
      simpa using ih hany

/-- Overwrite-in-place branch of `assocSet`: other keys are untouched. -/
theorem lookupA_map_set_ne {α : Type} (l : List (String × α)) (k k2 : String)
    (v : α) (hne : k2 ≠ k) :
    lookupA (l.map (fun p => if p.1 == k then (p.1, v) else p)) k2 =
      lookupA l k2 := by
  induction l with
  | nil => rfl
  | cons p ps ih =>
    by_cases hp : p.1 == k
    · have hk : p.1 = k := beq_iff_eq.mp hp
      have hp2 : (p.1 == k2) = false := by
        rw [beq_eq_false_iff_ne, hk]
        exact fun h => hne h.symm
      rw [List.map_cons, if_pos hp, lookupA_cons, lookupA_cons, hp2]
      simpa using ih
    · simp only [Bool.not_eq_true] at hp
      rw [List.map_cons, if_neg (by simp [hp]), lookupA_cons, lookupA_cons]
      by_cases hp2 : p.1 == k2
      · simp [hp2]
      · simp only [Bool.not_eq_true] at hp2
        rw [hp2]
        simpa using ih

/-- Lookup over a one-pair extension misses the foreign key. -/
theorem lookupA_append_single_ne {α : Type} (l : List (String × α))
    (k k2 : String) (v : α) (hne : k2 ≠ k) :
    lookupA (l ++ [(k, v)]) k2 = lookupA l k2 := by
  induction l with
  | nil =>
    have hk2 : (k == k2) = false := by
      rw [beq_eq_false_iff_ne]
      exact fun h => hne h.symm
    rw [List.nil_append, lookupA_cons]
    simp [hk2, lookupA, List.find?]
  | cons p ps ih =>
    rw [List.cons_append, lookupA_cons, lookupA_cons]
    by_cases hp2 : p.1 == k2 <;> simp [hp2, ih]

/-- Lookup over a one-pair extension whose key misses the base list. -/
theorem lookupA_append_single_self {α : Type} (l : List (String × α))
    (k : String) (v : α) (hany : l.any (fun p => p.1 == k) = false) :
    lookupA (l ++ [(k, v)]) k = some v := by
  induction l with
  | nil =>
    rw [List.nil_append, lookupA_cons]
    simp
  | cons p ps ih =>
    simp only [List.any_cons, Bool.or_eq_false_iff] at hany
    rw [List.cons_append, lookupA_cons]
    simp [hany.1, ih hany.2]

/-- Looking up the key just assigned finds the assigned value. -/
theorem lookupA_assocSet_self {α : Type} (l : List (String × α)) (k : String)
    (v : α) : lookupA (assocSet l k v) k = some v := by
  unfold assocSet
  by_cases hany : l.any (fun p => p.1 == k)
  · simpa [hany] using lookupA_map_set_self l k v hany
  · simp only [Bool.not_eq_true] at hany
    simpa [hany] using lookupA_append_single_self l k v hany

/-- Assignment at one key does not disturb lookups at other keys. -/
theorem lookupA_assocSet_ne {α : Type} (l : List (String × α)) (k k2 : String)
    (v : α) (hne : k2 ≠ k) : lookupA (assocSet l k v) k2 = lookupA l k2 := by
  unfold assocSet
  by_cases hany : l.any (fun p => p.1 == k)
  · simpa [hany] using lookupA_map_set_ne l k k2 v hne
  · simp only [Bool.not_eq_true] at hany
    simpa [hany] using lookupA_append_single_ne l k k2 v hne

/-- Merging an object whose keys all differ from `k` leaves lookups at `k`
unchanged. -/
theorem lookupA_mergeAssoc_not_mem {α : Type} (b a : List (String × α))
    (k : String) (hk : ∀ p ∈ b, p.1 ≠ k) :
    lookupA (mergeAssoc a b) k = lookupA a k := by
  induction b generalizing a with
  | nil => rfl
  | cons p ps ih =>
    show lookupA (mergeAssoc (assocSet a p.1 p.2) ps) k = lookupA a k
    rw [ih (assocSet a p.1 p.2) (fun q hq => hk q (List.mem_cons_of_mem p hq))]
    exact lookupA_assocSet_ne a p.1 k p.2
      (fun h => hk p (List.mem_cons_self p ps) h.symm)

/-- Merging an object with unique keys makes each of its pairs win the
lookup. -/
theorem lookupA_mergeAssoc_mem {α : Type} (b a : List (String × α))
    (k : String) (v : α) (hnd : (b.map Prod.fst).Nodup) (hmem : (k, v) ∈ b) :
    lookupA (mergeAssoc a b) k = some v := by
  induction b generalizing a with
  | nil => simp at hmem
  | cons p ps ih =>
    simp only [List.map_cons, List.nodup_cons] at hnd
    rcases List.mem_cons.mp hmem with hhead | htail
    · show lookupA (mergeAssoc (assocSet a p.1 p.2) ps) k = some v
      have hknotin : ∀ q ∈ ps, q.1 ≠ k := by
        intro q hq he
        apply hnd.1
        have hp1 : p.1 = q.1 := by
          rw [← hhead]
          exact he.symm
        rw [hp1]
        exact List.mem_map_of_mem Prod.fst hq
      rw [lookupA_mergeAssoc_not_mem ps (assocSet a p.1 p.2) k hknotin,
        ← hhead]
      exact lookupA_assocSet_self a k v
    · exact ih (assocSet a p.1 p.2) hnd.2 htail

/-- `keySet` preserves existing keys. -/
theorem mem_keySet_of_mem (l : List String) (k x : String) (hx : x ∈ l) :
    x ∈ keySet l k := by
  unfold keySet
  by_cases h : l.any (· == k) <;> simp [h, hx]

/-- `keySet` contains the inserted key. -/
theorem mem_keySet_self (l : List String) (k : String) : k ∈ keySet l k := by
  unfold keySet
  by_cases h : l.any (· == k)
  · simp only [h, if_true]
    rcases List.any_eq_true.mp h with ⟨x, hx, hxe⟩
    rw [← beq_iff_eq.mp hxe] at *
    exact hx
  · simp [h]

/-- A fold of `keySet` insertions preserves existing keys. -/
theorem mem_foldl_keySet_of_mem {β : Type} (f : β → String) (xs : List β)
    (l : List String) (x : String) (hx : x ∈ l) :
    x ∈ xs.foldl (fun acc p => keySet acc (f p)) l := by
  induction xs generalizing l with
  | nil => exact hx
  | cons p ps ih => exact ih (keySet l (f p)) (mem_keySet_of_mem l (f p) x hx)

/-- A fold of `keySet` insertions contains the key of every element
inserted. -/
theorem mem_foldl_keySet_of_elem {β : Type} (f : β → String) (xs : List β)
    (l : List String) (x : β) (hx : x ∈ xs) :
    f x ∈ xs.foldl (fun acc p => keySet acc (f p)) l := by
  induction xs generalizing l with
  | nil => simp at hx
  | cons p ps ih =>
    rcases List.mem_cons.mp hx with hh | ht
    · rw [hh]
      exact mem_foldl_keySet_of_mem f ps (keySet l (f p)) (f p)
        (mem_keySet_self l (f p))
    · exact ih (keySet l (f p)) ht

/-- Keys present in the action registry survive later slice
registrations. -/
theorem mem_actions_foldl_of_mem (slices : List SliceDescriptor)
    (reg : Registry) (x : String) (hx : x ∈ reg.actionCreators) :
    x ∈ (slices.foldl registerStateSlice reg).actionCreators := by
  induction slices generalizing reg with
  | nil => exact hx
  | cons d ds ih =>
    refine ih (registerStateSlice reg d) ?_
    exact mem_foldl_keySet_of_mem (fun p => d.sliceName ++ "_" ++ p.1)
      d.actionReducers reg.actionCreators x hx

/-- Registering the slices of a descriptor list records the identifier
`slice + '_' + handlerKey` of every handler of every listed slice. -/
theorem mem_actions_foldl (slices : List SliceDescriptor) (reg : Registry)
    (d : SliceDescriptor) (hk : String) (f : Obj → Val → Obj)
    (hd : d ∈ slices) (hmem : (hk, f) ∈ d.actionReducers) :
    (d.sliceName ++ "_" ++ hk) ∈
      (slices.foldl registerStateSlice reg).actionCreators := by
  induction slices generalizing reg with
  | nil => simp at hd
  | cons s ss ih =>
    rcases List.mem_cons.mp hd with hh | ht
    · subst hh
      refine mem_actions_foldl_of_mem ss (registerStateSlice reg d) _ ?_
      exact mem_foldl_keySet_of_elem (fun p => d.sliceName ++ "_" ++ p.1)
        d.actionReducers reg.actionCreators (hk, f) hmem
    · exact ih (registerStateSlice reg s) ht

/-! Claims. -/

/-- C1: when a slice reducer receives an action it owns, the handler is
invoked with the current slice state and the action's payload, and the
new slice state is the shallow merge of the handler's returned partial
object over the current slice state; in particular the counter scenario
(slice `counter`, handler `increment`, payload `5` dispatched twice)
yields top-level state `{counter: {value: 10}}` and selector
`counter_value` then reads `10`. -/
theorem claim1_owned_handler_merge :
    (∀ (registered : List String) (d : SliceDescriptor) (st : Obj)
      (a : Action) (h : Obj → Val → Obj),
      (registered.any (· == a.type) || jsStartsWith a.type "@@") = true →
      jsStartsWith a.type d.sliceName = true →
      findHandler d (splitIdx1 '_' a.type.data) = some h →
      sliceReducer registered d st a =
        .ok (.fresh (mergeObj st (h st a.payload)))) ∧
    counterRun = .ok ([("counter", [("value", Val.num 10)])], Val.num 10) := by
  constructor
  · intro registered d st a h hval hpre hh
    unfold sliceReducer
    rw [← Bool.not_or, hval]
    simp [hpre, hh]
  · rfl

/-- Witness for C1: the general part applied to slice `counter` receiving
`counter_increment` with payload `5` at state `{value: 0}`. -/
theorem claim1_witness :
    ((["counter_increment"].any (· == "counter_increment") ||
        jsStartsWith "counter_increment" "@@") = true ∧
      jsStartsWith "counter_increment" "counter" = true) ∧
    sliceReducer ["counter_increment"] counterDesc [("value", Val.num 0)]
        ⟨"counter_increment", Val.num 5, none, false⟩ =
      .ok (.fresh (mergeObj [("value", Val.num 0)]
        (incrementHandler [("value", Val.num 0)] (Val.num 5)))) :=
  ⟨⟨by decide, by decide⟩,
    claim1_owned_handler_merge.1 ["counter_increment"] counterDesc
      [("value", Val.num 0)] ⟨"counter_increment", Val.num 5, none, false⟩
      incrementHandler (by decide) (by decide) rfl⟩

/-- C2: on a dispatched action whose type is neither a registered action
identifier nor prefixed with the reserved `"@@"` bootstrap marker, every
slice reducer throws the unknown-action-type error, and the combined
dispatch aborts with that error before producing any new top-level
state (so the store's state is unchanged when the error propagates). -/
theorem claim2_unknown_type_throws :
    ∀ (registered : List String) (rs : List (String × SliceDescriptor))
      (st : TopState) (a : Action),
      registered.any (· == a.type) = false →
      jsStartsWith a.type "@@" = false →
      (∀ kd ∈ rs, sliceReducer registered kd.2 (curSlice st kd.1 kd.2) a =
        .error ("Unknown action type " ++ a.type)) ∧
      (rs ≠ [] → combinedReduce registered rs st a =
        .error ("Unknown action type " ++ a.type)) := by
  intro registered rs st a h1 h2
  have herr : ∀ (d : SliceDescriptor) (s : Obj),
      sliceReducer registered d s a =
        .error ("Unknown action type " ++ a.type) := by
    intro d s
    unfold sliceReducer
    rw [h1, h2]
    rfl
  refine ⟨fun kd _ => herr kd.2 _, ?_⟩
  intro hne
  cases rs with
  | nil => exact absurd rfl hne
  | cons kd rest =>
    obtain ⟨key, d⟩ := kd
    unfold combinedReduce
    rw [herr d (curSlice st key d)]
    rfl

/-- Witness for C2: dispatching `a_nonexistent` against the one-slice
counter store throws the unknown-action-type error. -/
theorem claim2_witness :
    (["counter_increment"].any (· == "a_nonexistent") = false ∧
      jsStartsWith "a_nonexistent" "@@" = false) ∧
    combinedReduce ["counter_increment"] [("counter", counterDesc)] []
        ⟨"a_nonexistent", .undefined, none, false⟩ =
      .error ("Unknown action type " ++ "a_nonexistent") :=
  ⟨⟨by decide, by decide⟩,
    (claim2_unknown_type_throws ["counter_increment"]
        [("counter", counterDesc)] [] ⟨"a_nonexistent", .undefined, none, false⟩
        (by decide) (by decide)).2 (List.cons_ne_nil _ _)⟩

/-- C3 counterexample: the claim says dispatching the identifier `s_h`
applies only slice `s`'s handler and leaves every other slice's state
referentially unchanged.  With slices `a` and `ab` (each with a handler
`x`), the action `ab_x` of slice `ab` is also matched by slice `a`'s
reducer, because `"ab_x"` starts with `"a"` and `"ab_x".split('_')[1] =
"x"` names a handler of `a`: slice `a` takes the merge branch (a fresh
object) rather than the `return state` branch, and the full dispatch
mutates both slices. -/
theorem claim3_counterexample :
    sliceReducer overlapReg.actionCreators sliceA [("v", Val.num 0)]
        ⟨"ab_x", Val.num 0, none, false⟩ =
      .ok (.fresh [("v", Val.num 1)]) ∧
    sliceReducer overlapReg.actionCreators sliceA [("v", Val.num 0)]
        ⟨"ab_x", Val.num 0, none, false⟩ ≠ .ok .same ∧
    overlapRun =
      .ok [("a", [("v", Val.num 1)]), ("ab", [("w", Val.num 2)])] := by
  refine ⟨rfl, ?_, rfl⟩
  rw [show sliceReducer overlapReg.actionCreators sliceA [("v", Val.num 0)]
      ⟨"ab_x", Val.num 0, none, false⟩ =
      Except.ok (RefObj.fresh [("v", Val.num 1)]) from rfl]
  simp

/-- C3 (amended): for every handler key `h` of slice `s` the identifier
`s + '_' + h` is registered; ownership is decided by the action type
starting with the slice's name AND the segment between the first and
second separator naming one of the slice's handlers; every slice that
does not own the action returns its sub-state referentially unchanged
(the `return state` branch); and when neither the slice name nor the
handler key contains the separator, the slice owns its own identifier
`s_h` — so the dispatch applies only slice `s`'s handler whenever no
other slice also owns `s_h`. -/
theorem claim3_amended_routing :
    (∀ (slices : List SliceDescriptor) (d : SliceDescriptor) (hk : String)
      (f : Obj → Val → Obj), d ∈ slices → (hk, f) ∈ d.actionReducers →
      (d.sliceName ++ "_" ++ hk) ∈ (buildRegistry slices).actionCreators) ∧
    (∀ (registered : List String) (d : SliceDescriptor) (st : Obj)
      (a : Action),
      (registered.any (· == a.type) || jsStartsWith a.type "@@") = true →
      sliceOwns d a.type = false →
      sliceReducer registered d st a = .ok .same) ∧
    (∀ (d : SliceDescriptor) (hk : String) (f : Obj → Val → Obj),
      (hk, f) ∈ d.actionReducers →
      charIn '_' d.sliceName.data = false → charIn '_' hk.data = false →
      sliceOwns d (d.sliceName ++ "_" ++ hk) = true) := by
  refine ⟨?_, ?_, ?_⟩
  · intro slices d hk f hd hmem
    exact mem_actions_foldl slices ⟨[], [], []⟩ d hk f hd hmem
  · intro registered d st a hval howns
    unfold sliceOwns at howns
    unfold sliceReducer
    rw [← Bool.not_or, hval]
    simp only [Bool.not_true]
    rw [if_neg Bool.false_ne_true]
    cases hs : jsStartsWith a.type d.sliceName <;>
      cases hf : findHandler d (splitIdx1 '_' a.type.data)
    · rfl
    · rfl
    · rfl
    · rw [hs, hf] at howns
      simp at howns
  · intro d hk f hmem hs hh
    have h1 : jsStartsWith (d.sliceName ++ "_" ++ hk) d.sliceName = true := by
      rw [String.append_assoc]
      exact jsStartsWith_left d.sliceName ("_" ++ hk)
    have hfind :
        (d.actionReducers.find? (fun p => p.1.data == hk.data)).isSome =
          true :=
      List.find?_isSome.mpr ⟨(hk, f), hmem, by simp⟩
    obtain ⟨g, hg⟩ := Option.isSome_iff_exists.mp hfind
    unfold sliceOwns
    rw [h1, Bool.true_and, splitIdx1_name _ _ hs hh]
    show (Option.map (fun x => x.2)
      (List.find? (fun p => p.1.data == hk.data) d.actionReducers)).isSome =
        true
    rw [hg]
    rfl

/-- Witness for the amended C3: the counter slice's handler registers
`counter_increment`, the slice owns that identifier, and a slice does not
react to the bootstrap action it does not own. -/
theorem claim3_amended_witness :
    (counterDesc ∈ [counterDesc] ∧
      ("increment", incrementHandler) ∈ counterDesc.actionReducers) ∧
    ("counter" ++ "_" ++ "increment") ∈
      (buildRegistry [counterDesc]).actionCreators ∧
    sliceOwns counterDesc ("counter" ++ "_" ++ "increment") = true ∧
    sliceReducer ["counter_increment"] counterDesc [("value", Val.num 0)]
      ⟨"@@redux/INIT", .undefined, none, false⟩ = .ok .same :=
  ⟨⟨by simp, by simp [counterDesc]⟩,
    claim3_amended_routing.1 [counterDesc] counterDesc "increment"
      incrementHandler (by simp) (by simp [counterDesc]),
    claim3_amended_routing.2.2 counterDesc "increment" incrementHandler
      (by simp [counterDesc]) (by decide) (by decide),
    claim3_amended_routing.2.1 ["counter_increment"] counterDesc
      [("value", Val.num 0)] ⟨"@@redux/INIT", .undefined, none, false⟩
      (by decide) (by decide)⟩

/-- When every comma-separated part resolves to at least one name, the
query loop succeeds with the concatenation of the per-part
resolutions. -/
theorem normalizeQueryGo_ok (pn : String) (keys : List String) (Q : String)
    (parts : List (List Char)) (acc : List String)
    (h : ∀ part ∈ parts, resolveClause keys ⟨trimChars part⟩ ≠ []) :
    normalizeQueryGo pn keys Q parts acc =
      .ok (acc ++
        (parts.map (fun part => resolveClause keys ⟨trimChars part⟩)).flatten) := by
  induction parts generalizing acc with
  | nil => simp [normalizeQueryGo]
  | cons part rest ih =>
    have hempty : (resolveClause keys ⟨trimChars part⟩).isEmpty = false := by
      cases hres : resolveClause keys ⟨trimChars part⟩ with
      | nil => exact absurd hres (h part (List.mem_cons_self part rest))
      | cons x xs => rfl
    show (if (resolveClause keys ⟨trimChars part⟩).isEmpty = true then _
      else normalizeQueryGo pn keys Q rest
        (acc ++ resolveClause keys ⟨trimChars part⟩)) = _
    rw [hempty, if_neg Bool.false_ne_true,
      ih _ (fun p hp => h p (List.mem_cons_of_mem part hp))]
    simp [List.append_assoc]

/-- When some comma-separated part resolves to nothing, the query loop
fails with the bad-query error naming one such (trimmed) clause and the
original query string. -/
theorem normalizeQueryGo_err (pn : String) (keys : List String) (Q : String)
    (parts : List (List Char)) (acc : List String)
    (h : ∃ part ∈ parts, resolveClause keys ⟨trimChars part⟩ = []) :
    ∃ c, c ∈ parts.map (fun part => (⟨trimChars part⟩ : String)) ∧
      resolveClause keys c = [] ∧
      normalizeQueryGo pn keys Q parts acc =
        .error ("Bad store query " ++ pn ++ ": " ++ Q ++
          ". Could not resolve " ++ c) := by
  induction parts generalizing acc with
  | nil => simp at h
  | cons part rest ih =>
    by_cases hp : resolveClause keys ⟨trimChars part⟩ = []
    · refine ⟨⟨trimChars part⟩, List.mem_map_of_mem _
        (List.mem_cons_self part rest), hp, ?_⟩
      show (if (resolveClause keys ⟨trimChars part⟩).isEmpty = true then _
        else _) = _
      rw [hp]
      rfl
    · have hrest : ∃ p ∈ rest, resolveClause keys ⟨trimChars p⟩ = [] := by
        rcases h with ⟨p, hpmem, hpres⟩
        rcases List.mem_cons.mp hpmem with hh | ht
        · exact absurd (hh ▸ hpres) hp
        · exact ⟨p, ht, hpres⟩
      have hempty : (resolveClause keys ⟨trimChars part⟩).isEmpty = false := by
        cases hres : resolveClause keys ⟨trimChars part⟩ with
        | nil => exact absurd hres hp
        | cons x xs => rfl
      rcases ih (acc ++ resolveClause keys ⟨trimChars part⟩) hrest with
        ⟨c, hcmem, hcres, hgo⟩
      refine ⟨c, List.mem_map.mpr ?_, hcres, ?_⟩
      · rcases List.mem_map.mp hcmem with ⟨p, hpm, hpe⟩
        exact ⟨p, List.mem_cons_of_mem part hpm, hpe⟩
      · show (if (resolveClause keys ⟨trimChars part⟩).isEmpty = true then _
          else _) = _
        rw [hempty, if_neg Bool.false_ne_true]
        exact hgo

/-- C4: a query is split on commas and each clause trimmed; a clause with
the separator resolves to exactly that full name when registered; a
clause without the separator resolves to every registered name it leads;
the resolution of a query all of whose clauses match is the ordered
concatenation of the per-clause resolutions, and a query with a
zero-match clause raises the bad-query error naming that clause and the
original query string. -/
theorem claim4_query_resolution :
    ∀ (pn : String) (keys : List String) (q : String),
      ((∀ c ∈ clausesOf q, resolveClause keys c ≠ []) →
        normalizeQuery pn keys q =
          .ok (((clausesOf q).map (resolveClause keys)).flatten)) ∧
      ((∃ c ∈ clausesOf q, resolveClause keys c = []) →
        ∃ c, c ∈ clausesOf q ∧ resolveClause keys c = [] ∧
          normalizeQuery pn keys q =
            .error ("Bad store query " ++ pn ++ ": " ++ q ++
              ". Could not resolve " ++ c)) ∧
      (∀ c : String, charIn '_' c.data = true →
        resolveClause keys c = if keys.any (· == c) then [c] else []) ∧
      (∀ c : String, charIn '_' c.data = false →
        resolveClause keys c = keys.filter (fun k => jsStartsWith k c)) := by
  intro pn keys q
  refine ⟨?_, ?_, ?_, ?_⟩
  · intro h
    unfold normalizeQuery
    rw [normalizeQueryGo_ok pn keys q _ []
      (fun part hp => h _ (List.mem_map_of_mem _ hp))]
    simp [clausesOf, List.map_map, Function.comp_def]
  · intro h
    have h2 : ∃ part ∈ splitChar ',' q.data,
        resolveClause keys ⟨trimChars part⟩ = [] := by
      rcases h with ⟨c, hcmem, hcres⟩
      rcases List.mem_map.mp hcmem with ⟨p, hpm, hpe⟩
      exact ⟨p, hpm, hpe ▸ hcres⟩
    rcases normalizeQueryGo_err pn keys q (splitChar ',' q.data) [] h2 with
      ⟨c, hcmem, hcres, hgo⟩
    exact ⟨c, hcmem, hcres, hgo⟩
  · intro c hc
    unfold resolveClause
    rw [hc]
    simp
  · intro c hc
    unfold resolveClause
    rw [hc]
    simp

/-- Witness for C4: the query `"a_x, b_y"` over the registry
`{a_x, b_y}` resolves to exactly those two names. -/
theorem claim4_witness :
    (∀ c ∈ clausesOf "a_x, b_y", resolveClause ["a_x", "b_y"] c ≠ []) ∧
    normalizeQuery "_selectors" ["a_x", "b_y"] "a_x, b_y" =
      .ok (((clausesOf "a_x, b_y").map
        (resolveClause ["a_x", "b_y"])).flatten) ∧
    normalizeQuery "_selectors" ["a_x", "b_y"] "a_x, b_y" =
      .ok ["a_x", "b_y"] :=
  ⟨by decide,
    (claim4_query_resolution "_selectors" ["a_x", "b_y"] "a_x, b_y").1
      (by decide),
    rfl⟩

/-- C10: an empty clause (empty query string, or an empty segment from a
leading, trailing, or doubled comma) contains no separator, is handled as
a leading-run pattern that every registered name matches, and therefore
never raises the bad-query error on a nonempty registry; it contributes
the entire registry's key list to the result. -/
theorem claim10_empty_clause :
    ∀ (pn : String) (keys : List String), keys ≠ [] →
      resolveClause keys "" = keys ∧
      normalizeQuery pn keys "" = .ok keys ∧
      normalizeQuery pn keys "," = .ok (keys ++ keys) ∧
      (∀ q : String, (∀ c ∈ clausesOf q, resolveClause keys c ≠ []) →
        normalizeQuery pn keys (q ++ ",") =
          .ok ((((clausesOf q).map (resolveClause keys)).flatten) ++ keys)) := by
  intro pn keys hkeys
  have hres : resolveClause keys "" = keys := by
    unfold resolveClause
    rw [show charIn '_' ("" : String).data = false from rfl]
    simp only [Bool.not_false, if_true]
    exact List.filter_eq_self.mpr (fun k _ => jsStartsWith_empty k)
  have h0 : resolveClause keys ⟨trimChars []⟩ = keys := by
    rw [show (⟨trimChars []⟩ : String) = "" from rfl]
    exact hres
  have hgoal0 : normalizeQuery pn keys "" = .ok keys := by
    unfold normalizeQuery
    rw [show splitChar ',' ("" : String).data = [[]] from rfl]
    rw [normalizeQueryGo_ok pn keys "" [[]] [] (by
      intro part hp
      rw [List.mem_singleton] at hp
      subst hp
      rw [show (⟨trimChars []⟩ : String) = "" from rfl, hres]
      exact hkeys)]
    simp [h0]
  have hgoal1 : normalizeQuery pn keys "," = .ok (keys ++ keys) := by
    unfold normalizeQuery
    rw [show splitChar ',' ("," : String).data = [[], []] from rfl]
    rw [normalizeQueryGo_ok pn keys "," [[], []] [] (by
      intro part hp
      rcases List.mem_cons.mp hp with hh | ht
      · subst hh
        rw [show (⟨trimChars []⟩ : String) = "" from rfl, hres]
        exact hkeys
      · rw [List.mem_singleton] at ht
        subst ht
        rw [show (⟨trimChars []⟩ : String) = "" from rfl, hres]
        exact hkeys)]
    simp [h0]
  refine ⟨hres, hgoal0, hgoal1, ?_⟩
  intro q hq
  unfold normalizeQuery
  have hdata : (q ++ ",").data = q.data ++ [','] := by
    rw [String.data_append]
  rw [hdata, splitChar_append_sep]
  rw [normalizeQueryGo_ok pn keys (q ++ ",") (splitChar ',' q.data ++ [[]]) []
    (by
      intro part hp
      rcases List.mem_append.mp hp with hl | hr
      · exact hq _ (List.mem_map_of_mem _ hl)
      · rw [List.mem_singleton] at hr
        subst hr
        rw [show (⟨trimChars []⟩ : String) = "" from rfl, hres]
        exact hkeys)]
  rw [List.map_append, List.flatten_append]
  simp [h0, clausesOf, List.map_map, Function.comp_def]

/-- Witness for C10: over the registry `{s_a, s_b}`, the empty query, the
lone-comma query, and a trailing comma after a good query all succeed and
pull in the whole registry. -/
theorem claim10_witness :
    ((["s_a", "s_b"] : List String) ≠ [] ∧
      (∀ c ∈ clausesOf "s", resolveClause ["s_a", "s_b"] c ≠ [])) ∧
    normalizeQuery "_actionCreators" ["s_a", "s_b"] "" = .ok ["s_a", "s_b"] ∧
    normalizeQuery "_actionCreators" ["s_a", "s_b"] ("s" ++ ",") =
      .ok ((((clausesOf "s").map (resolveClause ["s_a", "s_b"])).flatten) ++
        ["s_a", "s_b"]) :=
  ⟨⟨by decide, by decide⟩,
    (claim10_empty_clause "_actionCreators" ["s_a", "s_b"] (by decide)).2.1,
    (claim10_empty_clause "_actionCreators" ["s_a", "s_b"] (by decide)).2.2.2
      "s" (by decide)⟩

/-- C5 counterexample: the claim says two consecutive calls that receive
the same whole-state object reference pass the identical slice reference
to the underlying selector on both calls.  For a freshly created selector
(memo unset), a first call with state reference `0` passes the fresh
shallow copy (reference `2`), while the second call with the same state
passes the cached `state[sliceName]` (reference `1`): the two passed
references differ. -/
theorem claim5_counterexample :
    (selectorWrapperStep none ⟨0, 1, 2⟩).1 ≠
      (selectorWrapperStep (selectorWrapperStep none ⟨0, 1, 2⟩).2
        ⟨0, 1, 2⟩).1 ∧
    (selectorWrapperStep none ⟨0, 1, 2⟩).1 = 2 ∧
    (selectorWrapperStep (selectorWrapperStep none ⟨0, 1, 2⟩).2
      ⟨0, 1, 2⟩).1 = 1 := by
  decide

/-- C5 (amended): on two consecutive calls with the same whole-state
reference the second call passes the cached slice sub-state by reference,
and if the memo already equals that state at the first call, both calls
pass the identical reference; when the second call receives a different
whole-state reference its wrapped selector gets the freshly allocated
shallow copy, distinct from the cached slice reference; and the
`prevState` memo is set to the incoming whole-state identity on every
call, in both branches. -/
theorem claim5_amended_memo_guard :
    ∀ (memo : Option Nat) (c c2 : SelCall),
      ((selectorWrapperStep (selectorWrapperStep memo c).2 c).1 =
        c.sliceRef) ∧
      (memo = some c.stateRef →
        (selectorWrapperStep memo c).1 = c.sliceRef) ∧
      (c2.stateRef ≠ c.stateRef →
        (selectorWrapperStep (selectorWrapperStep memo c).2 c2).1 =
          c2.freshRef) ∧
      (c2.stateRef ≠ c.stateRef → c2.freshRef ≠ c2.sliceRef →
        (selectorWrapperStep (selectorWrapperStep memo c).2 c2).1 ≠
          c2.sliceRef) ∧
      ((selectorWrapperStep memo c).2 = some c.stateRef) := by
  intro memo c c2
  have hmemo : (selectorWrapperStep memo c).2 = some c.stateRef := by
    unfold selectorWrapperStep
    by_cases h : memo = some c.stateRef <;> simp [h]
  have hsecond :
      (selectorWrapperStep (selectorWrapperStep memo c).2 c).1 =
        c.sliceRef := by
    rw [hmemo]
    simp [selectorWrapperStep]
  have hfresh : c2.stateRef ≠ c.stateRef →
      (selectorWrapperStep (selectorWrapperStep memo c).2 c2).1 =
        c2.freshRef := by
    intro h
    rw [hmemo]
    unfold selectorWrapperStep
    rw [if_neg (by
      intro he
      exact h (Option.some.inj he).symm)]
  refine ⟨hsecond, ?_, hfresh, ?_, hmemo⟩
  · intro h
    simp [selectorWrapperStep, h]
  · intro h hd
    rw [hfresh h]
    exact hd

/-- Witness for the amended C5: concrete runs of the wrapper with state
references `0` (twice) and then `3`. -/
theorem claim5_amended_witness :
    ((3 : Nat) ≠ 0 ∧ (5 : Nat) ≠ 4 ∧ (some 0 : Option Nat) = some 0) ∧
    (selectorWrapperStep (selectorWrapperStep none ⟨0, 1, 2⟩).2
      ⟨0, 1, 2⟩).1 = 1 ∧
    (selectorWrapperStep (some 0) ⟨0, 1, 2⟩).1 = 1 ∧
    (selectorWrapperStep (selectorWrapperStep none ⟨0, 1, 2⟩).2
      ⟨3, 4, 5⟩).1 = 5 ∧
    (selectorWrapperStep (selectorWrapperStep none ⟨0, 1, 2⟩).2
      ⟨3, 4, 5⟩).1 ≠ 4 ∧
    (selectorWrapperStep none ⟨0, 1, 2⟩).2 = some 0 :=
  ⟨⟨by decide, by decide, rfl⟩,
    (claim5_amended_memo_guard none ⟨0, 1, 2⟩ ⟨3, 4, 5⟩).1,
    (claim5_amended_memo_guard (some 0) ⟨0, 1, 2⟩ ⟨3, 4, 5⟩).2.1 rfl,
    (claim5_amended_memo_guard none ⟨0, 1, 2⟩ ⟨3, 4, 5⟩).2.2.1 (by decide),
    (claim5_amended_memo_guard none ⟨0, 1, 2⟩ ⟨3, 4, 5⟩).2.2.2.1
      (by decide) (by decide),
    (claim5_amended_memo_guard none ⟨0, 1, 2⟩ ⟨3, 4, 5⟩).2.2.2.2⟩

/-- Boolean absorption used for the error-flag equivalence. -/
theorem bool_or_or_self (a b : Bool) : ((a || b) || b) = (a || b) := by
  cases a <;> cases b <;> rfl

/-- C6: a bound action builds exactly `{type, payload}`; `meta` is attached
only when provided (and never as null/undefined); the `error` flag is set
exactly when the payload is Error-like (a direct `Error` instance or a
value whose prototype chain derives from `Error`); and the action is
dispatched immediately, the dispatch result being returned. -/
theorem claim6_bound_action_shape :
    ∀ (ty : String) (payload : Val) (meta : Option Val),
      (createBoundAction ty payload meta).type = ty ∧
      (createBoundAction ty payload meta).payload = payload ∧
      (meta = none → (createBoundAction ty payload meta).meta = none) ∧
      (∀ m, (createBoundAction ty payload meta).meta = some m →
        meta = some m) ∧
      ((createBoundAction ty payload meta).error = errorLikeSpec payload) ∧
      (∀ sr : SR, boundActionCall sr ty payload meta =
        srDispatch sr (createBoundAction ty payload meta)) := by
  intro ty payload meta
  refine ⟨rfl, rfl, ?_, ?_, ?_, fun _ => rfl⟩
  · intro h
    subst h
    rfl
  · intro m h
    cases meta with
    | none => simp [createBoundAction] at h
    | some m0 =>
      by_cases ht : truthy m0
      · simp only [createBoundAction, ht, if_true] at h
        rw [Option.some.inj h]
      · simp [createBoundAction, ht] at h
  · cases payload with
    | undefined => rfl
    | null => rfl
    | bool b => cases b <;> rfl
    | num n =>
      show ((n != 0) && (false || false)) = false
      rw [Bool.or_self, Bool.and_false]
    | str s =>
      show ((s != "") && (false || false)) = false
      rw [Bool.or_self, Bool.and_false]
    | objv chain =>
      show (true && (chainHasError chain || chainHasError chain.tail)) =
        chainHasError chain
      rw [Bool.true_and]
      cases chain with
      | nil => rfl
      | cons p rest =>
        show ((p == Proto.errorProto || chainHasError rest) ||
          chainHasError rest) = (p == Proto.errorProto || chainHasError rest)
        exact bool_or_or_self _ _

/-- Witness for C6: a custom error object (prototype chain through
`Error.prototype`) sets the flag, with no meta attached. -/
theorem claim6_witness :
    ((none : Option Val) = none) ∧
    (createBoundAction "auth_loginError"
        (Val.objv [Proto.plainProto, Proto.errorProto]) none).meta = none ∧
    (createBoundAction "auth_loginError"
        (Val.objv [Proto.plainProto, Proto.errorProto]) none).error =
      errorLikeSpec (Val.objv [Proto.plainProto, Proto.errorProto]) ∧
    (createBoundAction "auth_loginError"
        (Val.objv [Proto.plainProto, Proto.errorProto]) none).error = true :=
  ⟨rfl,
    (claim6_bound_action_shape "auth_loginError"
      (Val.objv [Proto.plainProto, Proto.errorProto]) none).2.2.1 rfl,
    (claim6_bound_action_shape "auth_loginError"
      (Val.objv [Proto.plainProto, Proto.errorProto]) none).2.2.2.2.1,
    by decide⟩

/-- Assignment into the empty object creates a one-pair object. -/
theorem assocSet_nil {α : Type} (k : String) (v : α) :
    assocSet [] k v = [(k, v)] := rfl

/-- Assignment of a second, different key appends it. -/
theorem assocSet_single_ne {α : Type} (k1 k2 : String) (v1 v2 : α)
    (h : (k1 == k2) = false) :
    assocSet [(k1, v1)] k2 v2 = [(k1, v1), (k2, v2)] := by
  unfold assocSet
  simp [h]

/-- Strings with equal character contents are equal. -/
theorem str_data_inj {a b : String} (h : a.data = b.data) : a = b := by
  cases a
  cases b
  exact congrArg String.mk h

/-- C7: a descriptor with initial-state keys `{a, b}` and no selector
factory registers exactly the two selectors `slice_a` and `slice_b`, each
returning the corresponding raw field of the slice state; when a factory
is supplied its output is spread over the per-key defaults, so a custom
selector shadows the default of the same key while the defaults of the
remaining keys are kept. -/
theorem claim7_default_selectors :
    (∀ (s a b : String) (va vb : Val)
      (acts : List (String × (Obj → Val → Obj))), a ≠ b →
      ((buildRegistry [⟨s, [(a, va), (b, vb)], acts, none⟩]).selectors =
        [(s ++ "_" ++ a, ⟨s, fun stateSlice _ => getProp stateSlice a⟩),
         (s ++ "_" ++ b, ⟨s, fun stateSlice _ => getProp stateSlice b⟩)]) ∧
      ((buildRegistry [⟨s, [(a, va), (b, vb)], acts, none⟩]).selectors.map
        Prod.fst = [s ++ "_" ++ a, s ++ "_" ++ b])) ∧
    (∀ (d : SliceDescriptor) (custom : List (String × (Obj → Val → Val))),
      d.createSelectors = some custom →
      allSelectorsOf d = mergeAssoc (createDefaultSelectors d) custom ∧
      (∀ k, (∀ p ∈ custom, p.1 ≠ k) →
        lookupA (allSelectorsOf d) k =
          lookupA (createDefaultSelectors d) k) ∧
      (∀ k v, (custom.map Prod.fst).Nodup → (k, v) ∈ custom →
        lookupA (allSelectorsOf d) k = some v)) := by
  constructor
  · intro s a b va vb acts hab
    have hab2 : (a == b) = false := beq_eq_false_iff_ne.mpr hab
    have hne2 : ((s ++ "_" ++ a) == (s ++ "_" ++ b)) = false := by
      rw [beq_eq_false_iff_ne]
      intro he
      apply hab
      have hd := congrArg String.data he
      rw [name_data, name_data] at hd
      have h2 := List.append_cancel_left hd
      injection h2 with _ h3
      exact str_data_inj h3
    have h1 : (buildRegistry
        [⟨s, [(a, va), (b, vb)], acts, none⟩]).selectors =
        [(s ++ "_" ++ a, ⟨s, fun stateSlice _ => getProp stateSlice a⟩),
         (s ++ "_" ++ b, ⟨s, fun stateSlice _ => getProp stateSlice b⟩)] := by
      unfold buildRegistry
      rw [List.foldl_cons, List.foldl_nil]
      unfold registerStateSlice
      show ((allSelectorsOf ⟨s, [(a, va), (b, vb)], acts, none⟩).foldl _ _) = _
      rw [show allSelectorsOf ⟨s, [(a, va), (b, vb)], acts, none⟩ =
        createDefaultSelectors ⟨s, [(a, va), (b, vb)], acts, none⟩ from rfl]
      unfold createDefaultSelectors
      simp only [List.foldl_cons, List.foldl_nil, assocSet_nil,
        assocSet_single_ne, hab2, hne2]
    refine ⟨h1, ?_⟩
    rw [h1]
    rfl
  · intro d custom hc
    have h1 : allSelectorsOf d = mergeAssoc (createDefaultSelectors d)
        custom := by
      unfold allSelectorsOf
      rw [hc]
    refine ⟨h1, ?_, ?_⟩
    · intro k hk
      rw [h1]
      exact lookupA_mergeAssoc_not_mem custom (createDefaultSelectors d) k hk
    · intro k v hnd hmem
      rw [h1]
      exact lookupA_mergeAssoc_mem custom (createDefaultSelectors d) k v
        hnd hmem

/-- Witness for C7: the two-key slice `slice = {x: 1, y: 2}` gets exactly
the selector names `slice_x`, `slice_y`, and a supplied factory output is
spread over the defaults. -/
theorem claim7_witness :
    (("x" : String) ≠ "y" ∧
      (SliceDescriptor.mk "s2" [] []
        (some [("x", fun _ _ => Val.bool true)])).createSelectors =
        some [("x", fun _ _ => Val.bool true)]) ∧
    ((buildRegistry
      [⟨"slice", [("x", Val.num 1), ("y", Val.num 2)], [], none⟩]).selectors.map
        Prod.fst = ["slice" ++ "_" ++ "x", "slice" ++ "_" ++ "y"]) ∧
    allSelectorsOf (SliceDescriptor.mk "s2" [] []
        (some [("x", fun _ _ => Val.bool true)])) =
      mergeAssoc (createDefaultSelectors (SliceDescriptor.mk "s2" [] []
        (some [("x", fun _ _ => Val.bool true)])))
        [("x", fun _ _ => Val.bool true)] :=
  ⟨⟨by decide, rfl⟩,
    (claim7_default_selectors.1 "slice" "x" "y" (Val.num 1) (Val.num 2) []
      (by decide)).2,
    (claim7_default_selectors.2
      (SliceDescriptor.mk "s2" [] [] (some [("x", fun _ _ => Val.bool true)]))
      [("x", fun _ _ => Val.bool true)] rfl).1⟩

/-- C8: `strictDispatch` throws the not-found error naming the action's
type when the type is not a registered identifier (no dispatch happens,
so the store state is untouched), and otherwise invokes the registered
bound action with `(action.payload, action.meta)` and returns its
result. -/
theorem claim8_strict_dispatch :
    ∀ (sr : SR) (a : Action),
      (sr.reg.actionCreators.any (· == a.type) = false →
        strictDispatchSR sr a =
          .error ("Action " ++ a.type ++ " not found")) ∧
      (sr.reg.actionCreators.any (· == a.type) = true →
        strictDispatchSR sr a = boundActionCall sr a.type a.payload a.meta) := by
  intro sr a
  constructor
  · intro h
    unfold strictDispatchSR
    rw [h]
    rfl
  · intro h
    unfold strictDispatchSR
    rw [h]
    rfl

/-- Witness for C8: over the counter registry, `nope_x` is rejected with
the not-found error and `counter_increment` routes to its bound
action. -/
theorem claim8_witness :
    (counterReg.actionCreators.any (· == "nope_x") = false ∧
      counterReg.actionCreators.any (· == "counter_increment") = true) ∧
    strictDispatchSR ⟨counterReg, [("counter", [("value", Val.num 0)])]⟩
        ⟨"nope_x", .undefined, none, false⟩ =
      .error ("Action " ++ "nope_x" ++ " not found") ∧
    strictDispatchSR ⟨counterReg, [("counter", [("value", Val.num 0)])]⟩
        ⟨"counter_increment", Val.num 5, none, false⟩ =
      boundActionCall ⟨counterReg, [("counter", [("value", Val.num 0)])]⟩
        "counter_increment" (Val.num 5) none :=
  ⟨⟨by decide, by decide⟩,
    (claim8_strict_dispatch ⟨counterReg, [("counter", [("value", Val.num 0)])]⟩
      ⟨"nope_x", .undefined, none, false⟩).1 (by decide),
    (claim8_strict_dispatch ⟨counterReg, [("counter", [("value", Val.num 0)])]⟩
      ⟨"counter_increment", Val.num 5, none, false⟩).2 (by decide)⟩

/-- C9: after construction the registries are read-only: no sequence of
public operations changes the registry component of the instance state —
only the selector `prevState` memos and the store's own state can
change. -/
theorem claim9_registry_read_only :
    ∀ (ops : List PubOp) (s : SRState),
      (ops.foldl applyOp s).reg = s.reg := by
  intro ops
  induction ops with
  | nil => intro s; rfl
  | cons op rest ih =>
    intro s
    rw [List.foldl_cons, ih]
    cases op with
    | getSelectorOp n => rfl
    | getSelectorsOp q => rfl
    | selectOneOp n o r =>
      simp only [applyOp]
      split <;> rfl
    | selectOp q o r =>
      simp only [applyOp]
      split <;> rfl
    | getActionOp n => rfl
    | getActionsOp q => rfl
    | strictDispatchOp a =>
      simp only [applyOp]
      split <;> rfl
    | getActionTypesOp q => rfl
    | mapStateToPropsOp q o r =>
      simp only [applyOp]
      split <;> rfl
    | mapDispatchToPropsOp q => rfl

end StrictRedux
